import Mathlib

/-
  Verification development for the PUML decision-tree / random-forest core.

  Shallow embedding of:
    - src/src/decisiontree.cpp  (class decision_tree: split generation, region
      scoring, recursive tree building, twin-leaf pruning, evaluation)
    - src/src/randomforest.cpp  (forest-level evaluation: majority vote for
      classification, arithmetic mean for regression)
    - type aliases from src/src/mldata.h and src/src/machinelearning.h
      (ml_map / ml_set are std::unordered_map / std::unordered_set, so their
      iteration order is unspecified; every place the C++ iterates such a
      container is modelled by an explicit order parameter, and theorems either
      quantify over all orders or restrict them by hypothesis).

  Conventions of the embedding:
    - ml_float / ml_double are embedded as exact rationals.
    - The C++ union ml_feature_value is embedded as a two-field structure;
      the code only ever reads the member it last wrote at a given index, so
      the two representations agree on every observable path.
    - Paths on which the C++ logs an error and calls exit/abort (invalid
      comparison operator, out-of-range feature index inside a split check)
      are modelled as returning false; no claim exercises these paths.
    - ml_uint counters (nodes_, leaves_) are embedded as Nat: they only grow
      by one per allocated node, so 32-bit wraparound is unreachable for any
      dataset a process can hold in memory.
    - The mt19937 random feature choice, the iteration order of unordered
      containers and the irrational sqrt in the continuous split generator are
      abstracted into an oracle record; each concrete execution of the C++
      corresponds to one oracle value, and universally quantified theorems
      range over every oracle.
-/

namespace PUML

/-- Feature kinds, from mldata.h (enum ml_feature_type). -/
inductive ml_feature_type where
  | continuous
  | discrete
deriving DecidableEq

/-- Model kinds, from mldata.h (enum ml_model_type). -/
inductive ml_model_type where
  | classification
  | regression
deriving DecidableEq

/-- Embedding of the C++ union ml_feature_value (machinelearning.h lines
132-137).  The union stores a single scalar; the code reads whichever member
matches the feature kind at the same index, and value-initialization gives
zero for both readings, so a two-field record with zero defaults is an
observationally faithful model. -/
structure ml_feature_value where
  continuous_value : ℚ := 0
  discrete_value_index : ℕ := 0
deriving DecidableEq

/-- One row of feature values (mldata.h ml_instance). -/
abbrev ml_instance := List ml_feature_value

/-- Element access for instances; all modelled accesses are in bounds on the
paths the claims exercise, so the default is never observed. -/
def fvAt (inst : ml_instance) (i : ℕ) : ml_feature_value :=
  inst.getD i {}

/-- Per-feature metadata (mldata.h ml_feature_desc).  Only the fields the
decision-tree core reads are modelled; name and distribution metadata are
produced upstream and never consulted by the functions embedded here. -/
structure ml_feature_desc where
  type : ml_feature_type
  preserve_missing : Bool := false
deriving DecidableEq

/-- Default descriptor, standing for the value-initialized C++ struct
(ml_feature_type zero value is continuous). -/
def default_desc : ml_feature_desc := { type := .continuous }

/-- Split comparison operators (decisiontree.h enum dt_comparison_op). -/
inductive dt_comparison_op where
  | noop
  | lessthanorequal
  | greaterthan
  | equal
  | notequal
deriving DecidableEq

/-- Candidate split record (decisiontree.cpp struct dt_split, lines 42-50).
Defaults mirror value initialization by dt_split{}. -/
structure dt_split where
  split_feature_index : ℕ := 0
  split_feature_type : ml_feature_type := .continuous
  split_feature_value : ml_feature_value := {}
  split_left_op : dt_comparison_op := .noop
  split_right_op : dt_comparison_op := .noop
  left_score : ℚ := 0
  right_score : ℚ := 0
deriving DecidableEq

/-- Tree node (decisiontree.h struct dt_node).  The C++ struct carries a
node_type tag plus two owning child pointers that are both null exactly on
leaves; the builder establishes that shape, so an inductive with a leaf and a
two-child split constructor is the faithful structural model.  Leaves keep
the retained instance list (leaf_instances). -/
inductive dt_node where
  | leaf (feature_index : ℕ) (feature_type : ml_feature_type)
      (feature_value : ml_feature_value) (leaf_instances : List ml_instance)
  | split (feature_index : ℕ) (feature_type : ml_feature_type)
      (feature_value : ml_feature_value)
      (split_left_op : dt_comparison_op) (split_right_op : dt_comparison_op)
      (left : dt_node) (right : dt_node)
deriving DecidableEq

/-- Build parameters of class decision_tree (decisiontree.h lines 143-150). -/
structure dt_config where
  mlid : List ml_feature_desc
  index_of_feature_to_predict : ℕ
  max_tree_depth : ℕ
  min_leaf_instances : ℕ
  features_to_consider_per_node : ℕ
  keep_instances_at_leaf_nodes : Bool := false
deriving DecidableEq

/-- Derivation of the model kind from the predicted feature kind
(decisiontree.cpp constructor, line 67). -/
def tree_type (t : dt_config) : ml_model_type :=
  if (t.mlid.getD t.index_of_feature_to_predict default_desc).type = .discrete
  then .classification else .regression

/-- Oracle abstracting the sources of nondeterminism and irrationality in one
C++ execution: `features n` is the random feature subset drawn at the n-th
find_best_split call (empty means consider all, matching the C++ fallback);
`levels n fi` is the iteration order of the unordered_set of distinct levels
for feature fi at that call; `sqrtq` stands for the real square root used for
the continuous split thresholds.  Each run of the C++ realizes one oracle. -/
structure dt_oracle where
  features : ℕ → List ℕ
  levels : ℕ → ℕ → List ℕ
  sqrtq : ℚ → ℚ

/-- Pruning tolerance DT_COMPARISON_EQUAL_TOL = 0.00000001
(decisiontree.cpp line 40). -/
def DT_COMPARISON_EQUAL_TOL : ℚ := 1 / 100000000

/-- decisiontree.cpp lines 157-165.  Note the lessthanorequal case is
implemented with a strict less-than on the continuous value (the source
comment reads: OREQUAL, ha...).  The invalid-operator default logs and exits
in the C++; modelled as false. -/
def continuous_feature_satisfies_constraint
    (feature_value split_feature_value : ml_feature_value) :
    dt_comparison_op → Bool
  | .lessthanorequal =>
      decide (feature_value.continuous_value < split_feature_value.continuous_value)
  | .greaterthan =>
      decide (feature_value.continuous_value > split_feature_value.continuous_value)
  | _ => false

/-- decisiontree.cpp lines 168-176.  The invalid-operator default logs and
exits in the C++; modelled as false. -/
def discrete_feature_satisfies_constraint
    (feature_value split_feature_value : ml_feature_value) :
    dt_comparison_op → Bool
  | .equal =>
      decide (feature_value.discrete_value_index = split_feature_value.discrete_value_index)
  | .notequal =>
      decide (feature_value.discrete_value_index ≠ split_feature_value.discrete_value_index)
  | _ => false

/-- decisiontree.cpp lines 179-196.  The out-of-range index branch logs and
exits in the C++; modelled as false (no claim reaches it). -/
def instance_satisfies_constraint_of_split (inst : ml_instance)
    (split_feature_index : ℕ) (split_feature_type : ml_feature_type)
    (split_feature_value : ml_feature_value) (split_op : dt_comparison_op) : Bool :=
  if inst.length ≤ split_feature_index then false
  else
    match split_feature_type with
    | .continuous =>
        continuous_feature_satisfies_constraint (fvAt inst split_feature_index)
          split_feature_value split_op
    | .discrete =>
        discrete_feature_satisfies_constraint (fvAt inst split_feature_index)
          split_feature_value split_op

/-- decisiontree.cpp lines 199-212: stable partition of the instance set by
the left constraint of the split. -/
def perform_split (mld : List ml_instance) (s : dt_split) :
    List ml_instance × List ml_instance :=
  (mld.filter (fun inst =>
      instance_satisfies_constraint_of_split inst s.split_feature_index
        s.split_feature_type s.split_feature_value s.split_left_op),
   mld.filter (fun inst =>
      !instance_satisfies_constraint_of_split inst s.split_feature_index
        s.split_feature_type s.split_feature_value s.split_left_op))

/-- decisiontree.cpp lines 215-251.  `order` is the iteration order of the
unordered_set of distinct levels present in mld at this feature (so a valid
order is a duplicate-free enumeration of exactly those levels).  With one
level no split is emitted; with exactly two the first one in iteration order
is erased (levels.erase(levels.begin())); otherwise one candidate per level
is emitted.  Note: the source emits the candidates with split_right_op equal
and split_left_op notequal, and never consults preserve_missing. -/
def add_splits_for_discrete_feature (order : List ℕ) (feature_index : ℕ)
    (mld : List ml_instance) : List dt_split :=
  if mld = [] then []
  else if order.length = 1 then []
  else
    let levels := if order.length = 2 then order.tail else order
    levels.map (fun level =>
      { split_feature_index := feature_index
        split_feature_type := .discrete
        split_feature_value := { discrete_value_index := level }
        split_right_op := .equal
        split_left_op := .notequal })

/-- One step of the Welford running mean/M2 update, mirroring the loop bodies
at decisiontree.cpp lines 267-273 and 309-329. -/
def welford_step (acc : ℕ × ℚ × ℚ) (x : ℚ) : ℕ × ℚ × ℚ :=
  let count := acc.1 + 1
  let delta := x - acc.2.1
  let mean := acc.2.1 + delta / (count : ℚ)
  (count, mean, acc.2.2 + delta * (x - mean))

/-- Single-pass count/mean/M2 of a list of values (Welford). -/
def welford (xs : List ℚ) : ℕ × ℚ × ℚ :=
  xs.foldl welford_step (0, 0, 0)

/-- decisiontree.cpp lines 254-294: threshold at the mean, plus thresholds at
mean plus/minus half the sample standard deviation when it is positive.
`sqrtq` abstracts the real square root (see dt_oracle). -/
def add_splits_for_continuous_feature (sqrtq : ℚ → ℚ) (feature_index : ℕ)
    (mld : List ml_instance) : List dt_split :=
  if mld = [] then []
  else
    let w := welford (mld.map (fun inst => (fvAt inst feature_index).continuous_value))
    let std : ℚ := if w.1 < 2 then 0 else sqrtq (w.2.2 / ((w.1 : ℚ) - 1))
    let base : dt_split :=
      { split_feature_index := feature_index
        split_feature_type := .continuous
        split_feature_value := { continuous_value := w.2.1 }
        split_right_op := .greaterthan
        split_left_op := .lessthanorequal }
    if 0 < std then
      [base,
       { base with split_feature_value := { continuous_value := w.2.1 + std / 2 } },
       { base with split_feature_value := { continuous_value := w.2.1 - std / 2 } }]
    else [base]

/-- The branch condition of both region scorers (decisiontree.cpp lines
313-316 and 354-357): an instance is counted on the left side when the split
is the no-op split or the left constraint is satisfied. -/
def goes_left (s : dt_split) (inst : ml_instance) : Bool :=
  decide (s.split_left_op = .noop) ||
    instance_satisfies_constraint_of_split inst s.split_feature_index
      s.split_feature_type s.split_feature_value s.split_left_op

/-- decisiontree.cpp lines 301-334: per-side residual sum of squares via the
single-pass Welford update; combined score is the unweighted sum.  The C++
interleaves both accumulators in one pass; since each accumulator is updated
only by the instances of its own side, in order, this equals running Welford
over each side separately. -/
def score_regions_with_split_for_regression (t : dt_config)
    (mld : List ml_instance) (s : dt_split) : ℚ × ℚ × ℚ :=
  let leftv := (mld.filter (goes_left s)).map
      (fun inst => (fvAt inst t.index_of_feature_to_predict).continuous_value)
  let rightv := (mld.filter (fun inst => !goes_left s inst)).map
      (fun inst => (fvAt inst t.index_of_feature_to_predict).continuous_value)
  let lscore := (welford leftv).2.2
  let rscore := (welford rightv).2.2
  (lscore, rscore, lscore + rscore)

/-- Gini impurity of one side (decisiontree.cpp lines 368-376): sum over the
classes present of p(1-p).  The C++ iterates an unordered_map of class
counts; the sum is order-independent, so the distinct classes are enumerated
by dedup. -/
def gini_side_score (vals : List ℕ) : ℚ :=
  (vals.dedup.map (fun c =>
    let p : ℚ := (vals.count c : ℚ) / (vals.length : ℚ)
    p * (1 - p))).sum

/-- decisiontree.cpp lines 341-380: Gini impurity per side, combined score is
the size-weighted average. -/
def score_regions_with_split_for_classification (t : dt_config)
    (mld : List ml_instance) (s : dt_split) : ℚ × ℚ × ℚ :=
  let leftv := (mld.filter (goes_left s)).map
      (fun inst => (fvAt inst t.index_of_feature_to_predict).discrete_value_index)
  let rightv := (mld.filter (fun inst => !goes_left s inst)).map
      (fun inst => (fvAt inst t.index_of_feature_to_predict).discrete_value_index)
  let lscore := gini_side_score leftv
  let rscore := gini_side_score rightv
  (lscore, rscore,
    ((leftv.length : ℚ) / (mld.length : ℚ)) * lscore
      + ((rightv.length : ℚ) / (mld.length : ℚ)) * rscore)

/-- decisiontree.cpp lines 387-402: dispatch on the model kind, empty set
scores (0,0,0). -/
def score_regions_with_split (t : dt_config) (mld : List ml_instance)
    (s : dt_split) : ℚ × ℚ × ℚ :=
  if mld = [] then (0, 0, 0)
  else
    match tree_type t with
    | .regression => score_regions_with_split_for_regression t mld s
    | .classification => score_regions_with_split_for_classification t mld s

/-- decisiontree.cpp lines 408-412: score of the undivided set via the no-op
split. -/
def score_region (t : dt_config) (mld : List ml_instance) : ℚ :=
  (score_regions_with_split t mld {}).2.2

/-- decisiontree.cpp lines 456-471: the candidate list, iterating feature
indices in ascending order, skipping the predicted feature and (when the
considered set is non-empty) the features outside it. -/
def build_candidate_splits (t : dt_config) (sqrtq : ℚ → ℚ)
    (lvl : ℕ → List ℕ) (considered : List ℕ) (mld : List ml_instance) :
    List dt_split :=
  (List.range t.mlid.length).flatMap (fun findex =>
    if findex = t.index_of_feature_to_predict then []
    else if considered ≠ [] ∧ findex ∉ considered then []
    else
      match (t.mlid.getD findex default_desc).type with
      | .discrete => add_splits_for_discrete_feature (lvl findex) findex mld
      | .continuous => add_splits_for_continuous_feature sqrtq findex mld)

/-- decisiontree.cpp lines 447-508 (decision_tree::find_best_split): score
every candidate and keep the first strictly best one; returns none exactly
when there is no candidate at all.  `_score` is the score of the undivided
set; the source uses it only for the feature-importance bookkeeping (not
modelled, no claim concerns it) and never to gate the choice of a split.
The C++ initializes best_score to DBL_MAX and every finite combined score of
the first candidate beats it, which the fold from none in find_best_split
below mirrors.  best_split_step is one iteration of the selection loop at
lines 480-492: strictly better combined score replaces the best so far, ties
keep the earlier candidate. -/
def best_split_step (t : dt_config) (mld : List ml_instance)
    (acc : Option (dt_split × (ℚ × ℚ × ℚ))) (s : dt_split) :
    Option (dt_split × (ℚ × ℚ × ℚ)) :=
  let sc := score_regions_with_split t mld s
  match acc with
  | none => some (s, sc)
  | some (bs, bsc) =>
      if sc.2.2 < bsc.2.2 then some (s, sc) else some (bs, bsc)

/-- The selection over all candidates (decisiontree.cpp lines 447-508): none
exactly when no candidate exists, otherwise the winning candidate with its
left/right region scores filled in. -/
def find_best_split (t : dt_config) (sqrtq : ℚ → ℚ) (lvl : ℕ → List ℕ)
    (considered : List ℕ) (mld : List ml_instance) (_score : ℚ) :
    Option dt_split :=
  let splits := build_candidate_splits t sqrtq lvl considered mld
  (splits.foldl (best_split_step t mld) none).map
    (fun p => { p.1 with left_score := p.2.1, right_score := p.2.2.1 })

/-- decisiontree.cpp lines 120-133: mean of a continuous feature over the
instance set (0 on the empty set). -/
def calc_mean_for_continuous_feature (feature_index : ℕ)
    (mld : List ml_instance) : ℚ :=
  if mld = [] then 0
  else (mld.map (fun inst => (fvAt inst feature_index).continuous_value)).foldl
        (· + ·) 0 / (mld.length : ℚ)

/-- decisiontree.cpp lines 136-154: mode of a discrete feature.  The C++
counts into a std::map (ordered, ascending keys) and takes the first key
whose count strictly exceeds the best so far, starting from (0,0); the
ascending enumeration of the distinct values present is modelled by
filtering List.range. -/
def calc_mode_value_index_for_discrete_feature (feature_index : ℕ)
    (mld : List ml_instance) : ℕ :=
  let vals := mld.map (fun inst => (fvAt inst feature_index).discrete_value_index)
  let keys := (List.range (vals.foldl max 0 + 1)).filter (fun k => vals.contains k)
  (keys.foldl
    (fun best k => if best.2 < vals.count k then (k, vals.count k) else best)
    ((0, 0) : ℕ × ℕ)).1

/-- decisiontree.cpp lines 511-526 (decision_tree::config_leaf_node): leaf at
the predicted feature, value the mean (regression) or mode (classification)
of the instances reaching it, retaining the instances when configured to.
The leaves_ counter increment is performed by the builder state below. -/
def config_leaf_node (t : dt_config) (mld : List ml_instance) : dt_node :=
  let ftype := (t.mlid.getD t.index_of_feature_to_predict default_desc).type
  let fv : ml_feature_value :=
    match tree_type t with
    | .regression =>
        { continuous_value :=
            calc_mean_for_continuous_feature t.index_of_feature_to_predict mld }
    | .classification =>
        { discrete_value_index :=
            calc_mode_value_index_for_discrete_feature t.index_of_feature_to_predict mld }
  dt_node.leaf t.index_of_feature_to_predict ftype fv
    (if t.keep_instances_at_leaf_nodes then mld else [])

/-- decisiontree.cpp lines 539-559 (decision_tree::prune_twin_leaf_nodes):
the pruning condition on the two children — both leaves predicting the same
class (classification, exact index match) or the same value within
DT_COMPARISON_EQUAL_TOL (regression). -/
def prune_twin_leaf_nodes (t : dt_config) : dt_node → dt_node → Bool
  | .leaf _ _ lfv _, .leaf _ _ rfv _ =>
      match tree_type t with
      | .classification => decide (lfv.discrete_value_index = rfv.discrete_value_index)
      | .regression =>
          decide (|lfv.continuous_value - rfv.continuous_value| < DT_COMPARISON_EQUAL_TOL)
  | _, _ => false

/-- The mutable bookkeeping of class decision_tree during a build: the nodes_
and leaves_ counters, plus the index of the next oracle consultation (the
C++ threads one mt19937 and fresh unordered containers through the calls in
visit order; `calls` names the position in that sequence). -/
structure build_state where
  nodes : ℕ := 0
  leaves : ℕ := 0
  calls : ℕ := 0
deriving DecidableEq

/-- The random feature subset consulted by find_best_split at a node whose
entry state is st: drawn from the oracle only when
features_to_consider_per_node_ > 0 (decisiontree.cpp lines 451-454), empty
meaning all features are considered. -/
def node_considered (t : dt_config) (o : dt_oracle) (st : build_state) : List ℕ :=
  if 0 < t.features_to_consider_per_node then o.features st.calls else []

/-- The best split found at a node (decisiontree.cpp line 580). -/
def node_found (t : dt_config) (o : dt_oracle) (mld : List ml_instance)
    (score : ℚ) (st : build_state) : Option dt_split :=
  find_best_split t o.sqrtq (o.levels st.calls) (node_considered t o st) mld score

/-- The best_split local of build_tree_node: dt_split{} (all defaults, noop
operators) when find_best_split finds nothing, the winner otherwise
(decisiontree.cpp lines 577-580). -/
def node_bs (t : dt_config) (o : dt_oracle) (mld : List ml_instance)
    (score : ℚ) (st : build_state) : dt_split :=
  (node_found t o mld score st).getD {}

/-- The leftmld/rightmld locals of build_tree_node: both empty unless a best
split was found, in which case the instance set is partitioned by it
(decisiontree.cpp lines 578-582). -/
def node_lr (t : dt_config) (o : dt_oracle) (mld : List ml_instance)
    (score : ℚ) (st : build_state) : List ml_instance × List ml_instance :=
  match node_found t o mld score st with
  | some s => perform_split mld s
  | none => ([], [])

/-- The builder state right before recursing into the children: the entry
state after this node allocation (nodes_ += 1) and after this node
find_best_split consumed its oracle position (calls + 1). -/
def node_st2 (st : build_state) : build_state :=
  { nodes := st.nodes + 1, leaves := st.leaves, calls := st.calls + 1 }

/-- decisiontree.cpp lines 562-599 (decision_tree::build_tree_node).
Structure, in source order: allocate the node (nodes_ += 1, reflected in the
nodes field of every branch result); configure a leaf when the current depth
equals max_tree_depth_ (the leaves + 1 is the increment inside
config_leaf_node); otherwise find the best split and partition — node_bs and
node_lr above — (the partition stays empty when no candidate exists);
configure a leaf when either side is below min_leaf_instances; otherwise
configure a split node, recurse into both sides passing each side region
score, and when the twin-leaf prune fires reconfigure as a leaf, with
nodes_ -= 2, leaves_ -= 2 followed by the leaves_ += 1 of config_leaf_node.

`fuel` bounds the recursion depth so the definition is structural; dt_train
below supplies mld.length + 1 fuel, which is never exhausted when
min_leaf_instances is positive (both recursion arguments are then strictly
shorter than mld), as the fuel-irrelevance theorem below makes precise.  The
exhaustion branch configures a leaf. -/
def build_tree_node (t : dt_config) (o : dt_oracle) :
    ℕ → List ml_instance → ℕ → ℚ → build_state → build_state × dt_node
  | 0, mld, _depth, _score, st =>
      ({ nodes := st.nodes + 1, leaves := st.leaves + 1, calls := st.calls },
       config_leaf_node t mld)
  | fuel + 1, mld, depth, score, st =>
      if depth = t.max_tree_depth then
        ({ nodes := st.nodes + 1, leaves := st.leaves + 1, calls := st.calls },
         config_leaf_node t mld)
      else
        let bs := node_bs t o mld score st
        let lr := node_lr t o mld score st
        if lr.1.length < t.min_leaf_instances ∨ lr.2.length < t.min_leaf_instances then
          ({ nodes := st.nodes + 1, leaves := st.leaves + 1, calls := st.calls + 1 },
           config_leaf_node t mld)
        else
          let r1 := build_tree_node t o fuel lr.1 (depth + 1) bs.left_score (node_st2 st)
          let r2 := build_tree_node t o fuel lr.2 (depth + 1) bs.right_score r1.1
          if prune_twin_leaf_nodes t r1.2 r2.2 then
            ({ nodes := r2.1.nodes - 2, leaves := r2.1.leaves - 2 + 1, calls := r2.1.calls },
             config_leaf_node t mld)
          else
            (r2.1,
             dt_node.split bs.split_feature_index bs.split_feature_type
               bs.split_feature_value bs.split_left_op bs.split_right_op r1.2 r2.2)

/-- decisiontree.cpp lines 89-117 (decision_tree::validate_for_training), in
source check order. -/
def validate_for_training (t : dt_config) (mld : List ml_instance) : Bool :=
  !t.mlid.isEmpty && !mld.isEmpty
    && decide (t.mlid.length ≤ (mld.headD []).length)
    && decide (t.index_of_feature_to_predict < t.mlid.length)
    && decide (0 < t.min_leaf_instances)

/-- The observable outcome of a successful train: the root and the final
nodes_ / leaves_ counters. -/
structure dt_tree_result where
  root : dt_node
  nodes : ℕ
  leaves : ℕ
deriving DecidableEq

/-- decisiontree.cpp lines 602-621 (decision_tree::train): validate, reset
the counters, build from depth 0 with the undivided region score.  Returns
none when validation fails (the C++ returns false and builds nothing). -/
def dt_train (t : dt_config) (o : dt_oracle) (mld : List ml_instance) :
    Option dt_tree_result :=
  if validate_for_training t mld then
    let r := build_tree_node t o (mld.length + 1) mld 0 (score_region t mld) {}
    some ⟨r.2, r.1.nodes, r.1.leaves⟩
  else none

/-- decisiontree.cpp lines 709-720: walk the tree, descending left when the
left constraint is satisfied. -/
def evaluate_decision_tree_node_for_instance : dt_node → ml_instance → ml_feature_value
  | .leaf _ _ fv _, _ => fv
  | .split fi ft fv lop _ l r, inst =>
      if instance_satisfies_constraint_of_split inst fi ft fv lop then
        evaluate_decision_tree_node_for_instance l inst
      else
        evaluate_decision_tree_node_for_instance r inst

/-- decisiontree.cpp lines 723-737 (decision_tree::evaluate): a zero-valued
prediction (with a logged warning) on an empty tree or empty instance
definition, a zero-valued prediction (with a logged error) on a too-short
instance, otherwise the tree walk. -/
def dt_evaluate (mlid : List ml_feature_desc) (root : Option dt_node)
    (inst : ml_instance) : ml_feature_value :=
  match root with
  | none => {}
  | some r =>
      if mlid.isEmpty then {}
      else if inst.length < mlid.length then {}
      else evaluate_decision_tree_node_for_instance r inst

/-- The selection loop of randomforest.cpp lines 343-350: scan the counting
map in iteration order, keeping the first key whose count strictly exceeds
the best so far, starting from index 0 with count 0. -/
def rf_vote_step (votes : List ℕ) (best : ℕ × ℕ) (k : ℕ) : ℕ × ℕ :=
  if best.2 < votes.count k then (k, votes.count k) else best

/-- The majority-vote winner for a classification forest, given the per-tree
predicted category indices `votes` and the iteration order `order` of the
unordered counting map (prediction_map accumulates one increment per vote, so
the count stored under a key is its multiplicity in `votes`; a valid order is
a duplicate-free enumeration of the distinct keys of `votes`). -/
def rf_classification_vote (order : List ℕ) (votes : List ℕ) : ℕ :=
  (order.foldl (rf_vote_step votes) ((0, 0) : ℕ × ℕ)).1

/-- randomforest.cpp lines 319-355
(_rf_evaluateClassificationRandomForestForInstance): fails (returns false) on
an empty forest, fails when any tree evaluation fails, otherwise returns the
majority-vote winner.  `tree_preds` abstracts the per-tree evaluation results
(the old-API tree evaluator the loop calls is not part of the sources; the
claims about this function only concern the vote aggregation). -/
def rf_evaluateClassificationRandomForestForInstance (order : List ℕ)
    (tree_preds : List (Option ℕ)) : Option ℕ :=
  if tree_preds.length = 0 then none
  else if tree_preds.all Option.isSome then
    some (rf_classification_vote order (tree_preds.filterMap id))
  else none

/-- randomforest.cpp lines 357-384
(_rf_evaluateRegressionRandomForestForInstance): fails (returns false) on an
empty forest, fails when any tree evaluation fails, otherwise returns the sum
of the per-tree predictions divided by the tree count. -/
def rf_evaluateRegressionRandomForestForInstance
    (tree_preds : List (Option ℚ)) : Option ℚ :=
  if tree_preds.length = 0 then none
  else if tree_preds.all Option.isSome then
    some ((tree_preds.filterMap id).foldl (· + ·) 0 / (tree_preds.length : ℚ))
  else none

/-- Number of nodes reachable from a node (itself included). -/
def count_nodes : dt_node → ℕ
  | .leaf _ _ _ _ => 1
  | .split _ _ _ _ _ l r => 1 + count_nodes l + count_nodes r

/-- Number of leaf nodes reachable from a node. -/
def count_leaves : dt_node → ℕ
  | .leaf _ _ _ _ => 1
  | .split _ _ _ _ _ l r => count_leaves l + count_leaves r

/-- Height of a node: the largest number of edges on a path from it to a
leaf.  Every path from the root ends in a leaf, so no leaf is deeper than the
height of the root. -/
def tree_height : dt_node → ℕ
  | .leaf _ _ _ _ => 0
  | .split _ _ _ _ _ l r => 1 + max (tree_height l) (tree_height r)

/-- A trivial oracle for concrete runs that draw no random features, carry no
discrete feature with relevant level order, and hit no positive variance
(sqrtq is then never consulted with a positive argument). -/
def triv_oracle : dt_oracle :=
  { features := fun _ => [], levels := fun _ _ => [], sqrtq := fun _ => 0 }

/-- Oracle whose unordered-set iteration order for every discrete feature is
the ascending list [1, 2] (valid for the concrete datasets below, where every
discrete split feature has exactly the levels 1 and 2). -/
def oracle_levels12 : dt_oracle :=
  { features := fun _ => [], levels := fun _ _ => [1, 2], sqrtq := fun _ => 0 }

/-- Schema of the concrete scenario from the spec: a continuous feature x at
index 0 and a discrete target y at index 1. -/
def mlid_xy : List ml_feature_desc :=
  [{ type := .continuous }, { type := .discrete }]

/-- The four instances of the concrete spec scenario:
(x=1,y=A),(x=2,y=A),(x=10,y=B),(x=11,y=B) with A, B mapped to the category
indices 1, 2 (index 0 is the reserved unknown category). -/
def mld_xy : List ml_instance :=
  [[{ continuous_value := 1 }, { discrete_value_index := 1 }],
   [{ continuous_value := 2 }, { discrete_value_index := 1 }],
   [{ continuous_value := 10 }, { discrete_value_index := 2 }],
   [{ continuous_value := 11 }, { discrete_value_index := 2 }]]

/-- Build configuration for the spec scenario with max_tree_depth = 0. -/
def cfg_depth0 : dt_config :=
  { mlid := mlid_xy, index_of_feature_to_predict := 1, max_tree_depth := 0,
    min_leaf_instances := 1, features_to_consider_per_node := 0 }

/-- Two-discrete-feature schema: predicted feature at index 0, split feature
at index 1. -/
def mlid_dd : List ml_feature_desc :=
  [{ type := .discrete }, { type := .discrete }]

/-- Four instances over mlid_dd whose predicted values are perfectly
separated by feature 1 (feature 0 = [1,1,2,2], feature 1 = [1,1,2,2]). -/
def mld_dd_sep : List ml_instance :=
  [[{ discrete_value_index := 1 }, { discrete_value_index := 1 }],
   [{ discrete_value_index := 1 }, { discrete_value_index := 1 }],
   [{ discrete_value_index := 2 }, { discrete_value_index := 2 }],
   [{ discrete_value_index := 2 }, { discrete_value_index := 2 }]]

/-- Build configuration over mlid_dd with depth limit 1 and minimum leaf
size 1. -/
def cfg_dd_depth1 : dt_config :=
  { mlid := mlid_dd, index_of_feature_to_predict := 0, max_tree_depth := 1,
    min_leaf_instances := 1, features_to_consider_per_node := 0 }

/- ----------------------------------------------------------------------
   Helper lemmas
   ---------------------------------------------------------------------- -/

/-- config_leaf_node always produces a leaf constructor, so it contributes
one node. -/
theorem count_nodes_config_leaf (t : dt_config) (mld : List ml_instance) :
    count_nodes (config_leaf_node t mld) = 1 := rfl

/-- config_leaf_node always produces a leaf constructor, so it contributes
one leaf. -/
theorem count_leaves_config_leaf (t : dt_config) (mld : List ml_instance) :
    count_leaves (config_leaf_node t mld) = 1 := rfl

/-- config_leaf_node always produces a leaf constructor, of height 0. -/
theorem tree_height_config_leaf (t : dt_config) (mld : List ml_instance) :
    tree_height (config_leaf_node t mld) = 0 := rfl

/-- When the twin-leaf prune condition holds, both children are single leaf
nodes. -/
theorem prune_twin_leaf_nodes_shape {t : dt_config} {a b : dt_node}
    (h : prune_twin_leaf_nodes t a b = true) :
    count_nodes a = 1 ∧ count_leaves a = 1 ∧ count_nodes b = 1 ∧ count_leaves b = 1 := by
  cases a <;> cases b <;> simp_all [prune_twin_leaf_nodes, count_nodes, count_leaves]

/-- Left fold of addition over rationals accumulates the list sum. -/
theorem foldl_add_eq_sum (l : List ℚ) (a : ℚ) : l.foldl (· + ·) a = a + l.sum := by
  induction l generalizing a with
  | nil => simp
  | cons x xs ih => simp [ih, add_assoc]

/-- filterMap id undoes map some. -/
theorem filterMap_id_map_some {α : Type} (l : List α) : (l.map some).filterMap id = l := by
  induction l with
  | nil => rfl
  | cons x xs ih => simp [ih]

/-- Invariants of the majority-vote selection fold (randomforest.cpp lines
345-350): the running best count never decreases, ends at least as large as
the count of every scanned key, and the final pair is either untouched or
holds a key together with its exact count. -/
theorem rf_vote_fold_spec (votes : List ℕ) :
    ∀ (order : List ℕ) (p : ℕ × ℕ),
      p.2 ≤ (order.foldl (rf_vote_step votes) p).2
      ∧ (∀ k ∈ order, votes.count k ≤ (order.foldl (rf_vote_step votes) p).2)
      ∧ (order.foldl (rf_vote_step votes) p = p
          ∨ votes.count (order.foldl (rf_vote_step votes) p).1
              = (order.foldl (rf_vote_step votes) p).2) := by
  intro order
  induction order with
  | nil => intro p; exact ⟨le_refl _, by simp, Or.inl rfl⟩
  | cons k rest ih =>
      intro p
      rw [List.foldl_cons]
      obtain ⟨ih1, ih2, ih3⟩ := ih (rf_vote_step votes p k)
      have hstep2 : p.2 ≤ (rf_vote_step votes p k).2 := by
        unfold rf_vote_step
        split
        · exact le_of_lt (by assumption)
        · exact le_refl _
      have hstepk : votes.count k ≤ (rf_vote_step votes p k).2 := by
        unfold rf_vote_step
        split
        · exact le_refl _
        · exact le_of_not_lt (by assumption)
      refine ⟨le_trans hstep2 ih1, ?_, ?_⟩
      · intro j hj
        rcases List.mem_cons.mp hj with rfl | hj2
        · exact le_trans hstepk ih1
        · exact ih2 j hj2
      · rcases ih3 with heq | hc
        · rw [heq]
          unfold rf_vote_step
          split
          · exact Or.inr rfl
          · exact Or.inl rfl
        · exact Or.inr hc

/- ----------------------------------------------------------------------
   Claim theorems
   ---------------------------------------------------------------------- -/

/-- Claim C1, counterexample.  A two-tree classification forest votes 1-1
for the categories 1 and 2; the counting structure is an unordered map, so
the iteration order [2, 1] is a legitimate enumeration of its keys (it is a
permutation of the distinct votes), and with that order the forest returns
category 2, not the lowest tied index 1. -/
theorem C1_tie_break_counterexample :
    rf_evaluateClassificationRandomForestForInstance [2, 1] [some 1, some 2] = some 2
    ∧ ([2, 1] : List ℕ).Perm ([1, 2] : List ℕ).dedup
    ∧ ([1, 2] : List ℕ).count 1 = ([1, 2] : List ℕ).count 2
    ∧ (2 : ℕ) ≠ 1 := by decide

/-- Claim C1, amended: the forest prediction is produced by the
first-strict-maximum scan of the counting map in its iteration order; it
always attains the maximal vote count, but which of several tied categories
wins depends on that (unspecified) iteration order rather than being the
lowest index.  `order` ranges over every enumeration containing the distinct
votes. -/
theorem C1_majority_attained (order votes : List ℕ) (hne : votes ≠ [])
    (hmem : ∀ k ∈ votes, k ∈ order) :
    rf_evaluateClassificationRandomForestForInstance order (votes.map some)
        = some (rf_classification_vote order votes)
    ∧ ∀ k ∈ votes,
        votes.count k ≤ votes.count (rf_classification_vote order votes) := by
  constructor
  · unfold rf_evaluateClassificationRandomForestForInstance
    rw [filterMap_id_map_some]
    rw [if_neg (by simpa using hne), if_pos (by simp [List.all_map])]
  · obtain ⟨-, h2, h3⟩ := rf_vote_fold_spec votes order ((0, 0) : ℕ × ℕ)
    intro k hk
    rcases h3 with heq | hc
    · exfalso
      have hk0 : votes.count k ≤ 0 := by
        have := h2 k (hmem k hk)
        rwa [heq] at this
      have hpos : 0 < votes.count k := List.count_pos_iff.mpr hk
      omega
    · unfold rf_classification_vote
      rw [hc]
      exact h2 k (hmem k hk)

/-- Claim C1, witness for the amended theorem at the concrete tied forest. -/
theorem C1_majority_attained_witness :
    rf_evaluateClassificationRandomForestForInstance [2, 1] ([1, 2].map some)
        = some (rf_classification_vote [2, 1] [1, 2])
    ∧ ([1, 2] : List ℕ).count 1 ≤ ([1, 2] : List ℕ).count (rf_classification_vote [2, 1] [1, 2]) :=
  ⟨(C1_majority_attained [2, 1] [1, 2] (by decide) (by decide)).1,
   (C1_majority_attained [2, 1] [1, 2] (by decide) (by decide)).2 1 (by decide)⟩

/-- Claim C2 (code-bug evidence): with max_tree_depth = 0 the depth check
depth == max_tree_depth_ fires immediately at the root (depth 0), so train
produces a single leaf regardless of the data.  First conjunct: the concrete
four-instance spec scenario trains to one leaf predicting the majority class.
Second and third conjuncts: a dataset whose classes are perfectly separated
by feature 1 (an improving split with both sides at min_leaf_instances = 1
or more, which the builder does choose once the depth gate allows it, third
conjunct) still trains to a single leaf under max_tree_depth = 0. -/
theorem C2_maxdepth_zero_single_leaf :
    dt_train cfg_depth0 triv_oracle mld_xy
        = some ⟨.leaf 1 .discrete { discrete_value_index := 1 } [], 1, 1⟩
    ∧ dt_train { cfg_dd_depth1 with max_tree_depth := 0 } oracle_levels12 mld_dd_sep
        = some ⟨.leaf 0 .discrete { discrete_value_index := 1 } [], 1, 1⟩
    ∧ dt_train cfg_dd_depth1 oracle_levels12 mld_dd_sep
        = some ⟨.split 1 .discrete { discrete_value_index := 2 } .notequal .equal
            (.leaf 0 .discrete { discrete_value_index := 1 } [])
            (.leaf 0 .discrete { discrete_value_index := 2 } []), 3, 2⟩ :=
  ⟨by decide, by decide, by decide⟩

/-- Supporting fact for claim C2: for every configuration with
max_tree_depth = 0, every oracle and every dataset, a successful train
returns a tree whose root is the leaf configured from the full dataset, with
one node and one leaf — the depth check is not skipped when the limit is
zero. -/
theorem maxdepth_zero_root_leaf (t : dt_config) (o : dt_oracle)
    (mld : List ml_instance) (res : dt_tree_result)
    (hmax : t.max_tree_depth = 0) (h : dt_train t o mld = some res) :
    res.root = config_leaf_node t mld ∧ res.nodes = 1 ∧ res.leaves = 1 := by
  unfold dt_train at h
  split at h
  · simp only [build_tree_node, hmax, if_pos rfl] at h
    cases h
    simp
  · exact Option.noConfusion h

/-- Claim C4, counterexample.  The lessthanorequal operator is evaluated as
a strict less-than (decisiontree.cpp line 159), so an instance whose value
equals the split threshold fails the left constraint, and tree evaluation
descends into the RIGHT subtree: on the concrete one-split tree with
threshold 5 and leaves predicting 1 (left) and 2 (right), the instance with
value exactly 5 evaluates to 2, not to the left prediction 1. -/
theorem C4_equality_descends_right_counterexample :
    continuous_feature_satisfies_constraint { continuous_value := 5 }
        { continuous_value := 5 } .lessthanorequal = false
    ∧ dt_evaluate [{ type := .continuous }]
        (some (.split 0 .continuous { continuous_value := 5 } .lessthanorequal .greaterthan
          (.leaf 0 .continuous { continuous_value := 1 } [])
          (.leaf 0 .continuous { continuous_value := 2 } [])))
        [{ continuous_value := 5 }] = { continuous_value := 2 }
    ∧ ({ continuous_value := 2 } : ml_feature_value) ≠ { continuous_value := 1 } := by decide

/-- Claim C4, amended: at every continuous split node whose left operator is
lessthanorequal, an instance whose value at the split feature index equals
the threshold descends into the right subtree (the left comparison is
implemented as strict less-than). -/
theorem C4_equality_descends_right (inst : ml_instance) (fi : ℕ)
    (fv : ml_feature_value) (rop : dt_comparison_op) (l r : dt_node)
    (hfi : fi < inst.length)
    (heq : (fvAt inst fi).continuous_value = fv.continuous_value) :
    evaluate_decision_tree_node_for_instance
        (.split fi .continuous fv .lessthanorequal rop l r) inst
      = evaluate_decision_tree_node_for_instance r inst := by
  have hc : instance_satisfies_constraint_of_split inst fi .continuous fv
      .lessthanorequal = false := by
    simp [instance_satisfies_constraint_of_split, continuous_feature_satisfies_constraint,
      heq, Nat.not_le.mpr hfi]
  rw [evaluate_decision_tree_node_for_instance, hc]
  simp

/-- Claim C4, witness for the amended theorem at the concrete tree. -/
theorem C4_equality_descends_right_witness :
    evaluate_decision_tree_node_for_instance
        (.split 0 .continuous { continuous_value := 5 } .lessthanorequal .greaterthan
          (.leaf 0 .continuous { continuous_value := 1 } [])
          (.leaf 0 .continuous { continuous_value := 2 } []))
        [{ continuous_value := 5 }]
      = evaluate_decision_tree_node_for_instance
          (.leaf 0 .continuous { continuous_value := 2 } []) [{ continuous_value := 5 }] :=
  C4_equality_descends_right [{ continuous_value := 5 }] 0 { continuous_value := 5 }
    .greaterthan (.leaf 0 .continuous { continuous_value := 1 } [])
    (.leaf 0 .continuous { continuous_value := 2 } []) (by decide) (by decide)

/-- Three instances over mlid_dd whose feature 1 takes the three distinct
levels 1, 2, 3. -/
def mld_levels123 : List ml_instance :=
  [[{ discrete_value_index := 0 }, { discrete_value_index := 1 }],
   [{ discrete_value_index := 0 }, { discrete_value_index := 2 }],
   [{ discrete_value_index := 0 }, { discrete_value_index := 3 }]]

/-- Claim C5, counterexample.  The discrete split generator
(decisiontree.cpp lines 246-247) sets split_right_op to equal and
split_left_op to notequal — the opposite of the claim — and consequently an
instance whose category index equals the split category fails the left
constraint and descends right. -/
theorem C5_discrete_ops_counterexample :
    (add_splits_for_discrete_feature [1, 2, 3] 1 mld_levels123).map
        (fun s => (s.split_left_op, s.split_right_op))
      = [(.notequal, .equal), (.notequal, .equal), (.notequal, .equal)]
    ∧ discrete_feature_satisfies_constraint { discrete_value_index := 2 }
        { discrete_value_index := 2 } .notequal = false := by decide

/-- Claim C5, amended: every split candidate the generator emits for a
discrete feature carries left operator notequal and right operator equal,
and an instance whose category index equals the split category fails the
left constraint (hence descends right). -/
theorem C5_discrete_ops (order : List ℕ) (fi : ℕ) (mld : List ml_instance)
    (s : dt_split) (hs : s ∈ add_splits_for_discrete_feature order fi mld) :
    s.split_left_op = .notequal ∧ s.split_right_op = .equal
    ∧ ∀ fv : ml_feature_value,
        fv.discrete_value_index = s.split_feature_value.discrete_value_index →
        discrete_feature_satisfies_constraint fv s.split_feature_value s.split_left_op
          = false := by
  unfold add_splits_for_discrete_feature at hs
  split at hs
  · exact absurd hs (List.not_mem_nil s)
  split at hs
  · exact absurd hs (List.not_mem_nil s)
  · obtain ⟨lv, hlv, rfl⟩ := List.mem_map.mp hs
    refine ⟨rfl, rfl, ?_⟩
    intro fv hfv
    simp [discrete_feature_satisfies_constraint, hfv]

/-- Claim C5, witness for the amended theorem at a concrete emitted split. -/
theorem C5_discrete_ops_witness :
    ({ split_feature_index := 1, split_feature_type := .discrete,
       split_feature_value := { discrete_value_index := 1 },
       split_left_op := .notequal, split_right_op := .equal } : dt_split).split_left_op
        = .notequal
    ∧ ({ split_feature_index := 1, split_feature_type := .discrete,
         split_feature_value := { discrete_value_index := 1 },
         split_left_op := .notequal, split_right_op := .equal } : dt_split).split_right_op
        = .equal
    ∧ discrete_feature_satisfies_constraint { discrete_value_index := 1 }
        ({ split_feature_index := 1, split_feature_type := .discrete,
           split_feature_value := { discrete_value_index := 1 },
           split_left_op := .notequal, split_right_op := .equal } : dt_split).split_feature_value
        ({ split_feature_index := 1, split_feature_type := .discrete,
           split_feature_value := { discrete_value_index := 1 },
           split_left_op := .notequal, split_right_op := .equal } : dt_split).split_left_op
        = false :=
  ⟨(C5_discrete_ops [1, 2, 3] 1 mld_levels123 _ (by decide)).1,
   (C5_discrete_ops [1, 2, 3] 1 mld_levels123 _ (by decide)).2.1,
   (C5_discrete_ops [1, 2, 3] 1 mld_levels123 _ (by decide)).2.2
     { discrete_value_index := 1 } rfl⟩

/-- Four instances over mlid_dd whose feature 1 takes the levels 0, 1, 2
with 0 (the reserved unknown category) present. -/
def mld_levels012 : List ml_instance :=
  [[{ discrete_value_index := 1 }, { discrete_value_index := 0 }],
   [{ discrete_value_index := 1 }, { discrete_value_index := 1 }],
   [{ discrete_value_index := 2 }, { discrete_value_index := 2 }],
   [{ discrete_value_index := 2 }, { discrete_value_index := 0 }]]

/-- Claim C6, counterexample.  For a discrete feature with the three
distinct levels 0, 1 and 2 present and preserve_missing = false on its
descriptor, the generator emits a candidate for every level INCLUDING the
reserved index 0 ([0, 1, 2] is a valid iteration order: a permutation of the
distinct values present); the source never skips index 0 and never consults
preserve_missing. -/
theorem C6_no_skip_unknown_counterexample :
    (add_splits_for_discrete_feature [0, 1, 2] 1 mld_levels012).map
        (fun s => s.split_feature_value.discrete_value_index) = [0, 1, 2]
    ∧ ([0, 1, 2] : List ℕ).Perm
        (mld_levels012.map (fun inst => (fvAt inst 1).discrete_value_index)).dedup
    ∧ (mlid_dd.getD 1 default_desc).preserve_missing = false := by decide

/-- Claim C6, amended: when more than two distinct levels are present (the
iteration order `order` then has more than two entries), the generator emits
exactly one candidate per distinct level in iteration order — with no
special-casing of level 0 and no dependence on preserve_missing (which the
generator never reads; it does not even receive the feature descriptor). -/
theorem C6_candidate_per_level (order : List ℕ) (fi : ℕ)
    (mld : List ml_instance) (hne : mld ≠ []) (hlen : 2 < order.length) :
    (add_splits_for_discrete_feature order fi mld).map
        (fun s => s.split_feature_value.discrete_value_index) = order := by
  unfold add_splits_for_discrete_feature
  rw [if_neg hne, if_neg (by omega), if_neg (by omega)]
  simp [Function.comp_def]

/-- Claim C6, witness for the amended theorem at the concrete level set
containing the reserved index 0. -/
theorem C6_candidate_per_level_witness :
    (add_splits_for_discrete_feature [0, 1, 2] 1 mld_levels012).map
        (fun s => s.split_feature_value.discrete_value_index) = [0, 1, 2] :=
  C6_candidate_per_level [0, 1, 2] 1 mld_levels012 (by decide) (by decide)

/-- Claim C8, counterexample.  Evaluating an EMPTY FOREST does not return a
zero-valued prediction: both forest evaluators return failure (the C++
returns false without writing a prediction) when the forest has no trees. -/
theorem C8_empty_forest_fails_counterexample :
    rf_evaluateClassificationRandomForestForInstance [] [] = none
    ∧ rf_evaluateRegressionRandomForestForInstance [] = none := ⟨rfl, rfl⟩

/-- Claim C8, amended: evaluating an empty (untrained) TREE returns the
zero-valued prediction (with a logged warning) for every instance, and so
does an evaluate call with an empty instance definition; but evaluating an
empty FOREST fails (returns false) for both model kinds instead of
producing a zero prediction. -/
theorem C8_empty_evaluation :
    (∀ (mlid : List ml_feature_desc) (inst : ml_instance),
        dt_evaluate mlid none inst = { continuous_value := 0, discrete_value_index := 0 })
    ∧ (∀ (root : Option dt_node) (inst : ml_instance),
        dt_evaluate [] root inst = { continuous_value := 0, discrete_value_index := 0 })
    ∧ (∀ order : List ℕ, rf_evaluateClassificationRandomForestForInstance order [] = none)
    ∧ rf_evaluateRegressionRandomForestForInstance [] = none := by
  refine ⟨fun mlid inst => rfl, fun root inst => ?_, fun ord => rfl, rfl⟩
  cases root with
  | none => rfl
  | some r => rfl

/-- Claim C9: the regression forest prediction is exactly the arithmetic
mean of the per-tree predictions whenever the forest is non-empty and every
per-tree evaluation succeeds (randomforest.cpp lines 357-384 accumulate the
sum of the tree predictions and divide by the tree count). -/
theorem C9_regression_forest_mean (qs : List ℚ) (hk : qs ≠ []) :
    rf_evaluateRegressionRandomForestForInstance (qs.map some)
      = some (qs.sum / (qs.length : ℚ)) := by
  unfold rf_evaluateRegressionRandomForestForInstance
  rw [if_neg (by simpa using hk), if_pos (by simp [List.all_map])]
  rw [filterMap_id_map_some, foldl_add_eq_sum, zero_add, List.length_map]

/-- Claim C9, witness at a concrete two-tree forest. -/
theorem C9_regression_forest_mean_witness :
    rf_evaluateRegressionRandomForestForInstance ([(1 : ℚ), 2].map some)
      = some (([(1 : ℚ), 2]).sum / (([(1 : ℚ), 2] : List ℚ).length : ℚ)) :=
  C9_regression_forest_mean [1, 2] (by decide)

/-- Mapping over an option does not change whether it is populated. -/
theorem option_isSome_map {α β : Type} (f : α → β) (o : Option α) :
    (o.map f).isSome = o.isSome := by cases o <;> rfl

/-- The selection step keeps the accumulator populated. -/
theorem best_split_step_isSome (t : dt_config) (mld : List ml_instance)
    (b : dt_split × (ℚ × ℚ × ℚ)) (s : dt_split) :
    ∃ b2, best_split_step t mld (some b) s = some b2 := by
  obtain ⟨bs, bsc⟩ := b
  simp only [best_split_step]
  split <;> exact ⟨_, rfl⟩

/-- Once populated, the selection fold stays populated. -/
theorem foldl_best_split_isSome (t : dt_config) (mld : List ml_instance) :
    ∀ (l : List dt_split) (b : dt_split × (ℚ × ℚ × ℚ)),
      (l.foldl (best_split_step t mld) (some b)).isSome = true := by
  intro l
  induction l with
  | nil => intro b; rfl
  | cons s rest ih =>
      intro b
      rw [List.foldl_cons]
      obtain ⟨b2, hb2⟩ := best_split_step_isSome t mld b s
      rw [hb2]
      exact ih b2

/-- Claim C3, amended: find_best_split reports a split exactly when at least
one candidate exists; the score of the undivided set is never compared
against the candidates (the source uses it only for the feature-importance
delta), so a no-split outcome arises only from an empty candidate list —
never from the absence of a strict improvement. -/
theorem C3_split_chosen_iff_candidates (t : dt_config) (sqrtq : ℚ → ℚ)
    (lvl : ℕ → List ℕ) (considered : List ℕ) (mld : List ml_instance) (score : ℚ) :
    (find_best_split t sqrtq lvl considered mld score).isSome = true
      ↔ build_candidate_splits t sqrtq lvl considered mld ≠ [] := by
  unfold find_best_split
  generalize build_candidate_splits t sqrtq lvl considered mld = splits
  cases splits with
  | nil => simp
  | cons s rest =>
      rw [option_isSome_map, List.foldl_cons]
      constructor
      · intro
        exact List.cons_ne_nil s rest
      · intro
        have h0 : best_split_step t mld none s
            = some (s, score_regions_with_split t mld s) := rfl
        rw [h0]
        exact foldl_best_split_isSome t mld rest _

/-- Four instances over mlid_dd with a constant predicted value (feature 0
is 1 everywhere, a pure node of Gini score 0) and a non-constant discrete
feature 1 with values [1,1,2,2]. -/
def mld_dd_pure : List ml_instance :=
  [[{ discrete_value_index := 1 }, { discrete_value_index := 1 }],
   [{ discrete_value_index := 1 }, { discrete_value_index := 1 }],
   [{ discrete_value_index := 1 }, { discrete_value_index := 2 }],
   [{ discrete_value_index := 1 }, { discrete_value_index := 2 }]]

/-- Build configuration over mlid_dd with a deep depth limit, used for the
C3 counterexample. -/
def cfg_dd_deep : dt_config :=
  { mlid := mlid_dd, index_of_feature_to_predict := 0, max_tree_depth := 5,
    min_leaf_instances := 1, features_to_consider_per_node := 0 }

/-- The Gini impurity of a side whose predicted values are all equal is 0:
the single class present has proportion 1 and contributes 1 * (1 - 1). -/
theorem gini_side_score_const (l : List ℕ) (c : ℕ) (hall : ∀ x ∈ l, x = c) :
    gini_side_score l = 0 := by
  unfold gini_side_score
  apply List.sum_eq_zero
  intro q hq
  obtain ⟨x, hx, rfl⟩ := List.mem_map.mp hq
  have hxl : x ∈ l := List.mem_dedup.mp hx
  have hlen : (l.length : ℚ) ≠ 0 := by
    have hn : l ≠ [] := List.ne_nil_of_mem hxl
    exact_mod_cast (List.length_pos.mpr hn).ne'
  have hcnt : l.count x = l.length := by
    apply List.count_eq_length.mpr
    intro b hb
    rw [hall b hb, hall x hxl]
  simp only [hcnt]
  rw [div_self hlen]
  ring

/-- Claim C3, counterexample.  On a pure node (undivided Gini score 0) no
candidate split can strictly improve — the only candidate also scores 0 —
yet find_best_split still reports that candidate as the chosen split: the
choice is never gated on improving the undivided score. -/
theorem C3_no_improvement_still_splits :
    score_region cfg_dd_deep mld_dd_pure = 0
    ∧ (∀ s ∈ build_candidate_splits cfg_dd_deep (fun _ => 0) (fun _ => [1, 2]) [] mld_dd_pure,
        ¬ (score_regions_with_split cfg_dd_deep mld_dd_pure s).2.2
            < score_region cfg_dd_deep mld_dd_pure)
    ∧ (find_best_split cfg_dd_deep (fun _ => 0) (fun _ => [1, 2]) [] mld_dd_pure
        (score_region cfg_dd_deep mld_dd_pure)).isSome = true := by
  have hcand : build_candidate_splits cfg_dd_deep (fun _ => 0) (fun _ => [1, 2]) [] mld_dd_pure
      = [{ split_feature_index := 1, split_feature_type := .discrete,
           split_feature_value := { discrete_value_index := 2 },
           split_left_op := .notequal, split_right_op := .equal }] := by decide
  have hparent : score_region cfg_dd_deep mld_dd_pure = 0 := by
    unfold score_region score_regions_with_split score_regions_with_split_for_classification
    rw [if_neg (show ¬ mld_dd_pure = [] by decide)]
    rw [show tree_type cfg_dd_deep = ml_model_type.classification from rfl]
    simp only []
    rw [gini_side_score_const _ 1 (by decide), gini_side_score_const _ 1 (by decide)]
    simp
  have hsplit : (score_regions_with_split cfg_dd_deep mld_dd_pure
      { split_feature_index := 1, split_feature_type := .discrete,
        split_feature_value := { discrete_value_index := 2 },
        split_left_op := .notequal, split_right_op := .equal }).2.2 = 0 := by
    unfold score_regions_with_split score_regions_with_split_for_classification
    rw [if_neg (show ¬ mld_dd_pure = [] by decide)]
    rw [show tree_type cfg_dd_deep = ml_model_type.classification from rfl]
    simp only []
    rw [gini_side_score_const _ 1 (by decide), gini_side_score_const _ 1 (by decide)]
    simp
  refine ⟨hparent, ?_, ?_⟩
  · intro s hs
    rw [hcand] at hs
    rw [List.mem_singleton] at hs
    subst hs
    rw [hsplit, hparent]
    exact lt_irrefl 0
  · unfold find_best_split
    rw [hcand]
    simp only [List.foldl_cons, List.foldl_nil, option_isSome_map]
    rfl

/- ----------------------------------------------------------------------
   The builder invariants: depth bound (C7) and counter exactness (C10)
   ---------------------------------------------------------------------- -/

/-- The child-entry state carries the nodes counter incremented by the node
allocation. -/
theorem node_st2_nodes (st : build_state) : (node_st2 st).nodes = st.nodes + 1 := rfl

/-- The child-entry state carries the leaves counter unchanged. -/
theorem node_st2_leaves (st : build_state) : (node_st2 st).leaves = st.leaves := rfl

/-- Arithmetic step for the depth bound at a split node. -/
theorem height_split_aux {a b d M : ℕ} (h1 : a + (d + 1) ≤ M) (h2 : b + (d + 1) ≤ M) :
    1 + max a b + d ≤ M := by
  rcases Nat.le_total a b with h | h
  · rw [Nat.max_eq_right h]; omega
  · rw [Nat.max_eq_left h]; omega

/-- Every node the builder returns when entered at depth ≤ max_tree_depth
has height at most max_tree_depth - depth: the depth check turns a node into
a leaf exactly when the limit is reached and recursion always increments the
depth. -/
theorem build_tree_node_height (t : dt_config) (o : dt_oracle) :
    ∀ (fuel : ℕ) (mld : List ml_instance) (depth : ℕ) (score : ℚ) (st : build_state),
      depth ≤ t.max_tree_depth →
      tree_height (build_tree_node t o fuel mld depth score st).2 + depth
        ≤ t.max_tree_depth := by
  intro fuel
  induction fuel with
  | zero =>
      intro mld depth score st hd
      simpa [build_tree_node, tree_height_config_leaf] using hd
  | succ fuel ih =>
      intro mld depth score st hd
      by_cases hdep : depth = t.max_tree_depth
      · simp [build_tree_node, hdep, tree_height_config_leaf]
      · by_cases hsz : (node_lr t o mld score st).1.length < t.min_leaf_instances
            ∨ (node_lr t o mld score st).2.length < t.min_leaf_instances
        · simpa [build_tree_node, hdep, hsz, tree_height_config_leaf] using hd
        · have hd1 : depth + 1 ≤ t.max_tree_depth := by
            rcases Nat.lt_or_ge depth t.max_tree_depth with h | h
            · omega
            · exact absurd (Nat.le_antisymm hd h) hdep
          have h1 := ih (node_lr t o mld score st).1 (depth + 1)
            (node_bs t o mld score st).left_score (node_st2 st) hd1
          have h2 := ih (node_lr t o mld score st).2 (depth + 1)
            (node_bs t o mld score st).right_score
            (build_tree_node t o fuel (node_lr t o mld score st).1 (depth + 1)
              (node_bs t o mld score st).left_score (node_st2 st)).1 hd1
          by_cases hpr : prune_twin_leaf_nodes t
              (build_tree_node t o fuel (node_lr t o mld score st).1 (depth + 1)
                (node_bs t o mld score st).left_score (node_st2 st)).2
              (build_tree_node t o fuel (node_lr t o mld score st).2 (depth + 1)
                (node_bs t o mld score st).right_score
                (build_tree_node t o fuel (node_lr t o mld score st).1 (depth + 1)
                  (node_bs t o mld score st).left_score (node_st2 st)).1).2 = true
          · simpa [build_tree_node, hdep, hsz, hpr, tree_height_config_leaf] using hd
          · simp only [build_tree_node, if_neg hdep, if_neg hsz, hpr, if_neg,
              Bool.false_eq_true, not_false_eq_true, tree_height]
            exact height_split_aux h1 h2

/-- Claim C7: after every successful train with a positive depth limit d,
the height of the tree is at most d, so no leaf lies more than d edges from
the root. -/
theorem C7_depth_bound (t : dt_config) (o : dt_oracle) (mld : List ml_instance)
    (res : dt_tree_result) (_hd : 0 < t.max_tree_depth)
    (htrain : dt_train t o mld = some res) :
    tree_height res.root ≤ t.max_tree_depth := by
  unfold dt_train at htrain
  split at htrain
  · have h := build_tree_node_height t o (mld.length + 1) mld 0
      (score_region t mld) {} (Nat.zero_le _)
    cases htrain
    simpa using h
  · exact Option.noConfusion htrain

/-- Claim C7, witness: a successful concrete train under depth limit 1. -/
theorem C7_depth_bound_witness :
    0 < cfg_dd_depth1.max_tree_depth
    ∧ tree_height ((dt_train cfg_dd_depth1 oracle_levels12 mld_dd_sep).getD
        ⟨.leaf 0 .continuous {} [], 0, 0⟩).root ≤ cfg_dd_depth1.max_tree_depth :=
  ⟨by decide,
   C7_depth_bound cfg_dd_depth1 oracle_levels12 mld_dd_sep _ (by decide) rfl⟩

/-- After any build step the nodes and leaves counters advance by exactly
the number of nodes and leaves of the returned subtree: each branch of
build_tree_node adds one node and one leaf for a leaf configuration, and the
prune branch takes back exactly the two discarded leaf children. -/
theorem build_tree_node_counts (t : dt_config) (o : dt_oracle) :
    ∀ (fuel : ℕ) (mld : List ml_instance) (depth : ℕ) (score : ℚ) (st : build_state),
      (build_tree_node t o fuel mld depth score st).1.nodes
          = st.nodes + count_nodes (build_tree_node t o fuel mld depth score st).2
      ∧ (build_tree_node t o fuel mld depth score st).1.leaves
          = st.leaves + count_leaves (build_tree_node t o fuel mld depth score st).2 := by
  intro fuel
  induction fuel with
  | zero =>
      intro mld depth score st
      simp [build_tree_node, count_nodes_config_leaf, count_leaves_config_leaf]
  | succ fuel ih =>
      intro mld depth score st
      by_cases hdep : depth = t.max_tree_depth
      · simp [build_tree_node, hdep, count_nodes_config_leaf, count_leaves_config_leaf]
      · by_cases hsz : (node_lr t o mld score st).1.length < t.min_leaf_instances
            ∨ (node_lr t o mld score st).2.length < t.min_leaf_instances
        · simp [build_tree_node, hdep, hsz, count_nodes_config_leaf, count_leaves_config_leaf]
        · obtain ⟨h1n, h1l⟩ := ih (node_lr t o mld score st).1 (depth + 1)
            (node_bs t o mld score st).left_score (node_st2 st)
          obtain ⟨h2n, h2l⟩ := ih (node_lr t o mld score st).2 (depth + 1)
            (node_bs t o mld score st).right_score
            (build_tree_node t o fuel (node_lr t o mld score st).1 (depth + 1)
              (node_bs t o mld score st).left_score (node_st2 st)).1
          simp only [node_st2_nodes, node_st2_leaves] at h1n h1l
          by_cases hpr : prune_twin_leaf_nodes t
              (build_tree_node t o fuel (node_lr t o mld score st).1 (depth + 1)
                (node_bs t o mld score st).left_score (node_st2 st)).2
              (build_tree_node t o fuel (node_lr t o mld score st).2 (depth + 1)
                (node_bs t o mld score st).right_score
                (build_tree_node t o fuel (node_lr t o mld score st).1 (depth + 1)
                  (node_bs t o mld score st).left_score (node_st2 st)).1).2 = true
          · obtain ⟨c1n, c1l, c2n, c2l⟩ := prune_twin_leaf_nodes_shape hpr
            simp only [build_tree_node, if_neg hdep, if_neg hsz, hpr, if_pos,
              count_nodes_config_leaf, count_leaves_config_leaf]
            constructor <;> omega
          · simp only [build_tree_node, if_neg hdep, if_neg hsz, hpr, if_neg,
              Bool.false_eq_true, not_false_eq_true, count_nodes, count_leaves]
            constructor <;> omega

/-- Claim C10: after every successful train, the stored node counter equals
the number of nodes reachable from the root and the stored leaf counter
equals the number of leaves reachable from the root — in particular the
twin-leaf prune bookkeeping keeps both counters exact. -/
theorem C10_counters_exact (t : dt_config) (o : dt_oracle) (mld : List ml_instance)
    (res : dt_tree_result) (htrain : dt_train t o mld = some res) :
    res.nodes = count_nodes res.root ∧ res.leaves = count_leaves res.root := by
  unfold dt_train at htrain
  split at htrain
  · have h := build_tree_node_counts t o (mld.length + 1) mld 0 (score_region t mld) {}
    cases htrain
    simpa using h
  · exact Option.noConfusion htrain

/-- A filter and its complementary filter partition the length of a list. -/
theorem filter_length_partition {α : Type} (p : α → Bool) (l : List α) :
    (l.filter p).length + (l.filter (fun a => !p a)).length = l.length := by
  induction l with
  | nil => rfl
  | cons a rest ih =>
      by_cases h : p a
      · simp [List.filter_cons, h]
        omega
      · simp [List.filter_cons, h]
        omega

/-- Fidelity of the fuel embedding: the fuel never runs out on the arguments
dt_train passes.  Whenever min_leaf_instances is positive (which
validate_for_training guarantees for every successful train), any two fuel
values exceeding the instance count produce identical results, because each
recursive call operates on a strictly shorter instance list: the partition
sides sum to the list length and the min-leaf check bounds each side away
from zero. -/
theorem build_tree_node_fuel_irrelevant (t : dt_config) (o : dt_oracle)
    (hmin : 0 < t.min_leaf_instances) :
    ∀ (fuel1 fuel2 : ℕ) (mld : List ml_instance) (depth : ℕ) (score : ℚ) (st : build_state),
      mld.length < fuel1 → mld.length < fuel2 →
      build_tree_node t o fuel1 mld depth score st
        = build_tree_node t o fuel2 mld depth score st := by
  intro fuel1
  induction fuel1 with
  | zero =>
      intro fuel2 mld depth score st h1 h2
      omega
  | succ fuel1 ih =>
      intro fuel2 mld depth score st h1 h2
      cases fuel2 with
      | zero => omega
      | succ fuel2 =>
          by_cases hdep : depth = t.max_tree_depth
          · simp [build_tree_node, hdep]
          · by_cases hsz : (node_lr t o mld score st).1.length < t.min_leaf_instances
                ∨ (node_lr t o mld score st).2.length < t.min_leaf_instances
            · simp [build_tree_node, hdep, hsz]
            · have hsz2 := hsz
              push_neg at hsz2
              obtain ⟨hs1, hs2⟩ := hsz2
              have hsum : (node_lr t o mld score st).1.length
                  + (node_lr t o mld score st).2.length = mld.length := by
                unfold node_lr
                cases hf : node_found t o mld score st with
                | none =>
                    exfalso
                    have h0 : (node_lr t o mld score st).1 = [] := by
                      unfold node_lr; rw [hf]
                    rw [h0] at hs1
                    simp at hs1
                    omega
                | some s =>
                    simpa [perform_split] using
                      filter_length_partition
                        (fun inst => instance_satisfies_constraint_of_split inst
                          s.split_feature_index s.split_feature_type
                          s.split_feature_value s.split_left_op) mld
              have e1 := ih fuel2 (node_lr t o mld score st).1 (depth + 1)
                (node_bs t o mld score st).left_score (node_st2 st)
                (by omega) (by omega)
              have e2 := ih fuel2 (node_lr t o mld score st).2 (depth + 1)
                (node_bs t o mld score st).right_score
                (build_tree_node t o fuel2 (node_lr t o mld score st).1 (depth + 1)
                  (node_bs t o mld score st).left_score (node_st2 st)).1
                (by omega) (by omega)
              simp only [build_tree_node, if_neg hdep, if_neg hsz]
              rw [e1, e2]

/-- Claim C10, witness: a successful concrete train (one split, two leaves)
whose counters are exact. -/
theorem C10_counters_exact_witness :
    ((dt_train cfg_dd_depth1 oracle_levels12 mld_dd_sep).getD
        ⟨.leaf 0 .continuous {} [], 0, 0⟩).nodes
      = count_nodes ((dt_train cfg_dd_depth1 oracle_levels12 mld_dd_sep).getD
          ⟨.leaf 0 .continuous {} [], 0, 0⟩).root
    ∧ ((dt_train cfg_dd_depth1 oracle_levels12 mld_dd_sep).getD
        ⟨.leaf 0 .continuous {} [], 0, 0⟩).leaves
      = count_leaves ((dt_train cfg_dd_depth1 oracle_levels12 mld_dd_sep).getD
          ⟨.leaf 0 .continuous {} [], 0, 0⟩).root :=
  C10_counters_exact cfg_dd_depth1 oracle_levels12 mld_dd_sep _ rfl

end PUML
